import Mathlib

/-!
Verification of the yarn.lock dependency parser (`cli/src/semdep/parsers/yarn.py`).

The source builds two lockfile grammars (yarn v1 and yarn v2/3) out of small
backtracking parser combinators (the vendored `parsy` library plus helpers from
`semdep/parsers/util.py`), then assembles the parsed blocks into
`FoundDependency` records.  We embed the combinator layer shallowly: a parser is
a function from a parse state (remaining input plus the current 1-based line
number) to an optional result and successor state.  Backtracking alternation is
modelled by trying the alternative from the unchanged state, exactly as `parsy`
does.  Strings are embedded as `List Char`.
-/

namespace Yarn

/-- Character strings, embedded as lists of characters. -/
abbrev Str := List Char

/-- The newline character. -/
def nl : Char := '\n'

/-- The double-quote character (written via its code point to keep source text plain). -/
def dq : Char := Char.ofNat 34

/-- Parse state: the remaining input and the current 1-based line number
(`parsy` tracks the index and derives the line as the number of newlines
before it, plus one; consuming characters while counting newlines is
equivalent). -/
structure PState where
  input : Str
  line : Nat
deriving DecidableEq, Repr

/-- Modelled from the spec: the external parser-combinator library (`parsy`,
vendored outside `src/`).  A parser maps a state to `none` (failure) or to a
value and successor state. -/
abbrev Parser (α : Type) : Type := PState → Option (α × PState)

/-- Modelled from the spec: `parsy.success` — succeed without consuming input. -/
def Parser.pure (a : α) : Parser α := fun st => some (a, st)

/-- Modelled from the spec: `parsy` sequencing (`bind`). -/
def Parser.bind (p : Parser α) (f : α → Parser β) : Parser β := fun st =>
  match p st with
  | none => none
  | some (a, st2) => f a st2

/-- Modelled from the spec: `parsy` `.map`. -/
def Parser.map (f : α → β) (p : Parser α) : Parser β :=
  Parser.bind p (fun a => Parser.pure (f a))

/-- Modelled from the spec: `parsy` alternation `p | q` — if `p` fails, `q`
runs from the original position (full backtracking). -/
def Parser.orElse (p : Parser α) (q : Parser α) : Parser α := fun st =>
  match p st with
  | none => q st
  | r => r

/-- Modelled from the spec: `parsy` `p >> q` (keep the right result). -/
def Parser.seqRight (p : Parser α) (q : Parser β) : Parser β :=
  Parser.bind p (fun _ => q)

/-- Modelled from the spec: `parsy` `p << q` (keep the left result). -/
def Parser.seqLeft (p : Parser α) (q : Parser β) : Parser α :=
  Parser.bind p (fun a => Parser.bind q (fun _ => Parser.pure a))

/-- Modelled from the spec: `parsy` `.optional(default)` — on failure succeed
with the default, consuming nothing. -/
def Parser.poptional (p : Parser α) (d : α) : Parser α :=
  Parser.orElse p (Parser.pure d)

/-- Modelled from the spec: concatenation `p + q` of two string-valued parsers. -/
def Parser.pappend (p : Parser Str) (q : Parser Str) : Parser Str :=
  Parser.bind p (fun a => Parser.map (fun b => a ++ b) q)

/-- Advance the state by one consumed character, updating the line counter. -/
def PState.step (st : PState) (c : Char) (rest : Str) : PState :=
  ⟨rest, if c = nl then st.line + 1 else st.line⟩

/-- Core of the literal-string matcher: consume the given characters one by
one, counting newlines. -/
def pstringCore : Str → PState → Option PState
  | [], st => some st
  | c :: cs, st =>
    match st.input with
    | [] => none
    | x :: xs => if x = c then pstringCore cs (st.step c xs) else none

/-- Modelled from the spec: `parsy.string` — match an exact literal. -/
def pstring (l : Str) : Parser Str := fun st =>
  (pstringCore l st).map (fun st2 => (l, st2))

/-- Match an exact literal given as a Lean string. -/
def pstringS (s : String) : Parser Str := pstring s.toList

/-- Modelled from the spec: `parsy.any_char` — consume a single character,
failing at end of input. -/
def any_char : Parser Char := fun st =>
  match st.input with
  | [] => none
  | c :: cs => some (c, st.step c cs)

/-- Modelled from the spec: `parsy.peek(any_char)` — look at the next
character without consuming it. -/
def peek_any_char : Parser Char := fun st =>
  match st.input with
  | [] => none
  | c :: _ => some (c, st)

/-- Fuelled repetition used to realise `parsy` `.many()`.  When the fuel runs
out the loop stops successfully; every use in the grammar consumes at least
one character per iteration, so with fuel `input.length + 1` the semantics
coincide with `parsy`. -/
def manyAux (p : Parser α) : Nat → Parser (List α)
  | 0 => Parser.pure []
  | n + 1 => fun st =>
    match p st with
    | none => some ([], st)
    | some (a, st2) =>
      match manyAux p n st2 with
      | none => none
      | some (as, st3) => some (a :: as, st3)

/-- Modelled from the spec: `parsy` `.many()` — zero or more repetitions. -/
def pmany (p : Parser α) : Parser (List α) := fun st =>
  manyAux p (st.input.length + 1) st

/-- Modelled from the spec: `parsy` `.sep_by(sep)` with the default `min=0`:
one item followed by repeated `(sep >> item)`, or the empty list if the first
item fails. -/
def sepBy (p : Parser α) (sep : Parser β) : Parser (List α) :=
  Parser.orElse
    (Parser.bind p (fun a => Parser.map (fun as => a :: as) (pmany (Parser.seqRight sep p))))
    (Parser.pure [])

/-- Scan for the first position where one of the terminator characters
occurs, returning the scanned prefix and the rest (starting with the
terminator); fail if no terminator occurs before end of input.  This is
`any_char.until(alt(string(t) for t in ts))` for single-character
terminators, which is all the source uses. -/
def uptoCore (ts : List Char) : Str → Option (Str × Str)
  | [] => none
  | c :: rest =>
    if c ∈ ts then some ([], c :: rest)
    else
      match uptoCore ts rest with
      | none => none
      | some (pre, r) => some (c :: pre, r)

/-- Modelled from the spec: `util.upto(*ts, consume_other=b)` — the text up to
(excluding) the first terminator character; with `consume_other` the
terminator itself is consumed (but not returned). -/
def upto (ts : List Char) (consume_other : Bool) : Parser Str := fun st =>
  match uptoCore ts st.input with
  | none => none
  | some (pre, rest) =>
    let ln := st.line + pre.count nl
    if consume_other then
      match rest with
      | [] => none
      | c :: rs => some (pre, ⟨rs, if c = nl then ln + 1 else ln⟩)
    else some (pre, ⟨rest, ln⟩)

/-- Modelled from the spec: `util.consume_line` — consume the rest of the
current line (a nonempty run of non-newline characters; it fails on an empty
remainder, otherwise the document grammar of §4.3 could not separate blocks
at blank lines), producing no field (`None`). -/
def consume_line : Parser (Option α) := fun st =>
  match st.input.takeWhile (fun c => c != nl) with
  | [] => none
  | _ :: _ => some (none, ⟨st.input.dropWhile (fun c => c != nl), st.line⟩)

/-- Modelled from the spec: `util.pair(p, q)` — run `p` then `q`, returning
the pair of results. -/
def pair (p : Parser α) (q : Parser β) : Parser (α × β) :=
  Parser.bind p (fun a => Parser.map (fun b => (a, b)) q)

/-- Modelled from the spec: `util.quoted(p)` — `p` surrounded by double
quotes. -/
def quoted (p : Parser α) : Parser α :=
  Parser.seqLeft (Parser.seqRight (pstring [dq]) p) (pstring [dq])

/-- Modelled from the spec: `util.mark_line(p)` — pair `p`'s result with the
1-based line number at which it starts. -/
def mark_line (p : Parser α) : Parser (Nat × α) := fun st =>
  (p st).map (fun (a, st2) => ((st.line, a), st2))

/-- Modelled from the spec: `util.safe_path_parse` — run the parser over the
whole text (`parsy`'s `.parse` requires the input to be consumed entirely);
any failure is caught and surfaced as `none`. -/
def safe_parse (p : Parser α) (text : Str) : Option α :=
  match p ⟨text, 1⟩ with
  | none => none
  | some (a, st) => if st.input = [] then some a else none

/-! ## The yarn v1 grammar (`yarn.py`) -/

/-- `source1(quoted)`: one `name@constraint` spec of the v1 header line.  The
name is an optional `@` (scope marker) plus everything up to and including the
next `@`; the constraint runs up to a quote, or also a colon/comma when the
spec is unquoted. -/
def source1 (quoted : Bool) : Parser (Str × Str) :=
  pair
    (Parser.pappend (Parser.poptional (pstringS "@") []) (upto ['@'] true))
    (upto ([dq] ++ (if quoted then [] else [':', ','])) false)

/-- `multi_source1`: a `", "`-separated list of quoted or unquoted v1 specs. -/
def multi_source1 : Parser (List (Str × Str)) :=
  sepBy (Parser.orElse (quoted (source1 true)) (source1 false)) (pstringS ", ")

/-- Strip every leading and trailing double quote, as Python's
`str.strip('"')` does. -/
def strip_quotes (s : Str) : Str :=
  ((s.dropWhile (fun c => c = dq)).reverse.dropWhile (fun c => c = dq)).reverse

/-- `key_value1`: one line of a v1 block body.  Exactly two leading spaces and
no trailing bare colon make a data field `(key, value)` (quotes stripped from
the value); any other line is consumed up to the newline and yields `none`. -/
def key_value1 : Parser (Option (Str × Str)) :=
  Parser.bind (pmany (pstringS " ")) (fun spaces =>
    if spaces.length ≠ 2 then consume_line
    else Parser.bind (upto [' ', ':'] false) (fun key =>
      Parser.bind peek_any_char (fun next =>
        if next = ':' then consume_line
        else Parser.seqRight (pstringS " ")
          (Parser.bind (upto [nl] false) (fun value =>
            Parser.pure (some (key, strip_quotes value)))))))

/-- Collapse the optional key/value lines of a block body into the field
list, dropping the `none` entries (Python's `{x[0]: x[1] for x in xs if x}`;
lookup is last-binding-wins, see `dictGet`). -/
def dictOf (xs : List (Option (Str × Str))) : List (Str × Str) :=
  xs.filterMap id

/-- `yarn_dep1`: one full v1 dependency block — the header source list and
`":\n"`, then the field lines separated by newlines — marked with the line
number of its header. -/
def yarn_dep1 : Parser (Nat × (List (Str × Str) × List (Str × Str))) :=
  mark_line
    (pair
      (Parser.seqLeft multi_source1 (pstringS ":\n"))
      (Parser.map dictOf (sepBy key_value1 (pstringS "\n"))))

/-- `YARN1_PREFIX`: the exact v1 banner, two comment lines and a blank line. -/
def YARN1_PREFIX : String :=
  "# THIS IS AN AUTOGENERATED FILE. DO NOT EDIT THIS FILE DIRECTLY.\n# yarn lockfile v1\n\n"

/-- `yarn1`: the whole-document v1 grammar — the banner, an optional blank
line, blocks separated by blank lines, an optional trailing newline. -/
def yarn1 : Parser (List (Nat × (List (Str × Str) × List (Str × Str)))) :=
  Parser.seqLeft
    (Parser.seqRight (pstringS YARN1_PREFIX)
      (Parser.seqRight (Parser.poptional (pstringS "\n") [])
        (sepBy yarn_dep1 (pstringS "\n\n"))))
    (Parser.poptional (pstringS "\n") [])

/-! ## The yarn v2/3 grammar (`yarn.py`) -/

/-- `remove_npm_prefix`: drop a literal leading `npm:` tag, leave any other
string unchanged. -/
def remove_npm_prefix (s : Str) : Str :=
  if "npm:".toList.isPrefixOf s then s.drop 4 else s

/-- `source2`: one `name@constraint` spec of the v2 header line; the
constraint runs up to a quote or comma and has a leading `npm:` stripped. -/
def source2 : Parser (Str × Str) :=
  pair
    (Parser.pappend (Parser.poptional (pstringS "@") []) (upto ['@'] true))
    (Parser.map remove_npm_prefix (upto [dq, ','] false))

/-- `multi_source2`: a quoted `", "`-separated list of v2 specs. -/
def multi_source2 : Parser (List (Str × Str)) :=
  quoted (sepBy source2 (pstringS ", "))

/-- `key_value2`: one line of a v2 block body.  Exactly two leading spaces,
then `key`, a colon; a newline directly after the colon marks a nested
sub-block (`none`), otherwise a space and the value (quotes stripped) follow;
any other indentation is consumed up to the newline. -/
def key_value2 : Parser (Option (Str × Str)) :=
  Parser.bind (pmany (pstringS " ")) (fun spaces =>
    if spaces.length ≠ 2 then consume_line
    else Parser.bind (upto [':'] false) (fun key =>
      Parser.seqRight (pstringS ":")
        (Parser.bind peek_any_char (fun next =>
          if next = nl then Parser.pure none
          else Parser.seqRight (pstringS " ")
            (Parser.bind (upto [nl] false) (fun value =>
              Parser.pure (some (key, strip_quotes value))))))))

/-- `yarn_dep2`: one full v2 dependency block, marked with its header line. -/
def yarn_dep2 : Parser (Nat × (List (Str × Str) × List (Str × Str))) :=
  mark_line
    (pair
      (Parser.seqLeft multi_source2 (pstringS ":\n"))
      (Parser.map dictOf (sepBy key_value2 (pstringS "\n"))))

/-- `YARN2_PREFIX`: the v2 banner, two comment lines. -/
def YARN2_PREFIX : String :=
  "# This file is generated by running \"yarn install\" inside your project.\n# Manual changes might be lost - proceed with caution!\n"

/-- One or more decimal digits (the `\d+` of the metadata pattern). -/
def pdigits : Parser Str := fun st =>
  match st.input.takeWhile (fun c => c.isDigit) with
  | [] => none
  | c :: cs => some (c :: cs, ⟨st.input.dropWhile (fun c => c.isDigit), st.line⟩)

/-- The fixed-shape `__metadata` stanza matched by `YARN2_METADATA_REGEX`:
a blank line, `__metadata:`, a `version` line and a `cacheKey` line, each with
a decimal number. -/
def yarn2_metadata : Parser Str :=
  Parser.seqRight (pstringS "\n__metadata:\n  version: ")
    (Parser.seqRight pdigits
      (Parser.seqRight (pstringS "\n  cacheKey: ")
        (Parser.seqLeft pdigits (pstringS "\n"))))

/-- `yarn2`: the whole-document v2 grammar — the banner, the optional
metadata stanza, an optional blank line, blocks separated by blank lines, an
optional trailing newline. -/
def yarn2 : Parser (List (Nat × (List (Str × Str) × List (Str × Str)))) :=
  Parser.seqLeft
    (Parser.seqRight (pstringS YARN2_PREFIX)
      (Parser.seqRight (Parser.poptional yarn2_metadata [])
        (Parser.seqRight (Parser.poptional (pstringS "\n") [])
          (sepBy yarn_dep2 (pstringS "\n\n")))))
    (Parser.poptional (pstringS "\n") [])

/-! ## Record assembly (`yarn.py`: `get_manifest_deps`,
`remove_trailing_octothorpe`, `parse_yarn`) -/

/-- The npm ecosystem tag of `semgrep_output_v1.Ecosystem(Npm())`. -/
inductive Ecosystem where
  | npm
deriving DecidableEq, Repr

/-- The transitivity classification of `semgrep_output_v1.Transitivity`. -/
inductive Transitivity where
  | direct
  | transitive
  | unknown
deriving DecidableEq, Repr

/-- The output record `semgrep_output_v1.FoundDependency`. -/
structure FoundDependency where
  package : Str
  version : Str
  ecosystem : Ecosystem
  allowed_hashes : List (Str × List Str)
  resolved_url : Option Str
  transitivity : Transitivity
  line_number : Nat
deriving DecidableEq, Repr

/-- Python-dict lookup on an insertion-ordered association list: the last
binding of a key wins, as later comprehension entries overwrite earlier
ones. -/
def dictGet (fields : List (Str × Str)) (k : Str) : Option Str :=
  fields.foldl (fun acc kv => if kv.1 = k then some kv.2 else acc) none

/-- Modelled from the spec: the parsed shape of a `package.json` manifest as
far as `get_manifest_deps` reads it (`json_doc` and file access live outside
`src/`) — the optional top-level `dependencies` object, an insertion-ordered
mapping from package name to declared constraint. -/
structure ManifestJson where
  dependencies : Option (List (Str × Str))
deriving DecidableEq, Repr

/-- `get_manifest_deps`: the manifest's direct-dependency pairs.  The outer
`Option` of the argument is the manifest path (`none` = no manifest given),
the inner the result of parsing the file (`none` = unparseable).  No path or
a failed parse give `none`; a parsed manifest whose `dependencies` section is
absent or empty (falsy in Python) gives the empty set; otherwise the set of
`(name, constraint)` pairs. -/
def get_manifest_deps : Option (Option ManifestJson) → Option (List (Str × Str))
  | none => none
  | some none => none
  | some (some j) =>
    match j.dependencies with
    | none => some []
    | some [] => some []
    | some (d :: ds) => some (d :: ds)

/-- Modelled from the spec: `util.transitivity` — the classification loop:
no manifest data is `unknown`; otherwise the first source pair literally
contained in the manifest set makes the record `direct`, and if none is, it
is `transitive`. -/
def transitivityLoop (m : List (Str × Str)) : List (Str × Str) → Transitivity
  | [] => .transitive
  | s :: rest => if s ∈ m then .direct else transitivityLoop m rest

/-- Modelled from the spec: `util.transitivity` entry point. -/
def transitivity (manifest_deps : Option (List (Str × Str)))
    (dep_sources : List (Str × Str)) : Transitivity :=
  match manifest_deps with
  | none => .unknown
  | some m => transitivityLoop m dep_sources

/-- Python `str.split(sep)` for a single-character separator. -/
def pySplit (c : Char) : Str → List Str
  | [] => [[]]
  | x :: xs =>
    if x = c then [] :: pySplit c xs
    else
      match pySplit c xs with
      | [] => [[x]]
      | p :: ps => (x :: p) :: ps

/-- Python `sep.join(pieces)`. -/
def pyJoin (sep : Str) : List Str → Str
  | [] => []
  | [x] => x
  | x :: y :: ys => x ++ sep ++ pyJoin sep (y :: ys)

/-- `remove_trailing_octothorpe`: `"#".join(s.split("#")[:-1])` when `#`
occurs in `s`, otherwise `s` unchanged; `None` passes through. -/
def remove_trailing_octothorpe : Option Str → Option Str
  | none => none
  | some s =>
    if '#' ∈ s then some (pyJoin ['#'] ((pySplit '#' s).dropLast)) else some s

/-- Modelled from the spec: `util.extract_npm_lockfile_hash` — decode a v1
`integrity` value into a mapping from algorithm name to the digests carried
for it (space-separated `alg-digest` entries grouped by algorithm; the exact
digest decoding is the external collaborator's contract and no claim touches
it, so digests are kept verbatim). -/
def extract_npm_lockfile_hash : Option Str → List (Str × List Str)
  | none => []
  | some s =>
    (pySplit ' ' s).foldl
      (fun acc piece =>
        match pySplit '-' piece with
        | alg :: rest =>
          if rest = [] then acc
          else acc ++ [(alg, [pyJoin ['-'] rest])]
        | [] => acc)
      []

/-- The field keys used by `parse_yarn`. -/
def versionKey : Str := "version".toList

/-- The `integrity` field key. -/
def integrityKey : Str := "integrity".toList

/-- The `checksum` field key. -/
def checksumKey : Str := "checksum".toList

/-- The `resolved` field key. -/
def resolvedKey : Str := "resolved".toList

/-- The `sha512` hash-algorithm key. -/
def sha512Key : Str := "sha512".toList

/-- The `FoundDependency(...)` construction inside `parse_yarn`'s loop, for
one block that passed the source and version filters. -/
def mk_found_dependency (yarn_version : Nat)
    (manifest_deps : Option (List (Str × Str))) (line_number : Nat)
    (sources : List (Str × Str)) (fields : List (Str × Str)) (version : Str) :
    FoundDependency :=
  let allowed_hashes :=
    if yarn_version = 1 then extract_npm_lockfile_hash (dictGet fields integrityKey)
    else
      match dictGet fields checksumKey with
      | none => []
      | some c => if c = [] then [] else [(sha512Key, [c])]
  let resolved_url := dictGet fields resolvedKey
  { package := (sources.head?.getD ([], [])).1
    version := version
    ecosystem := .npm
    allowed_hashes := allowed_hashes
    resolved_url := remove_trailing_octothorpe resolved_url
    transitivity := transitivity manifest_deps sources
    line_number := line_number }

/-- The `for line_number, (sources, fields) in deps` loop of `parse_yarn`:
blocks with no sources or no `version` field are skipped, every other block
appends one record. -/
def assemble (yarn_version : Nat) (manifest_deps : Option (List (Str × Str))) :
    List (Nat × (List (Str × Str) × List (Str × Str))) → List FoundDependency
  | [] => []
  | (line_number, (sources, fields)) :: rest =>
    if sources.length < 1 then assemble yarn_version manifest_deps rest
    else
      match dictGet fields versionKey with
      | none => assemble yarn_version manifest_deps rest
      | some v =>
        mk_found_dependency yarn_version manifest_deps line_number sources fields v
          :: assemble yarn_version manifest_deps rest

/-- The dialect choice of `parse_yarn`:
`1 if lockfile_text.startswith(YARN1_PREFIX) else 2`. -/
def yarn_version_of (text : Str) : Nat :=
  if YARN1_PREFIX.toList.isPrefixOf text then 1 else 2

/-- The body of `parse_yarn` after the dialect has been chosen: run the
selected document grammar via `safe_parse`; a failed (or empty, both falsy)
result yields no records, otherwise the assembly loop runs over the blocks. -/
def parse_yarn_core (yarn_version : Nat) (text : Str)
    (manifest : Option (Option ManifestJson)) : List FoundDependency :=
  let manifest_deps := get_manifest_deps manifest
  let doc := if yarn_version = 1 then yarn1 else yarn2
  match safe_parse doc text with
  | none => []
  | some [] => []
  | some (d :: ds) => assemble yarn_version manifest_deps (d :: ds)

/-- `parse_yarn`: the entry point — pick the dialect from the file prefix and
run the core.  The lockfile bytes are the `text` argument (file I/O is outside
the embedding); the manifest argument is as in `get_manifest_deps`. -/
def parse_yarn (text : Str) (manifest : Option (Option ManifestJson)) :
    List FoundDependency :=
  parse_yarn_core (yarn_version_of text) text manifest

/-! ## Predicates and concrete inputs used in the statements below -/

/-- Decidable equality of parsed blocks (instance search does not find the
nested product instance on its own). -/
instance : DecidableEq (Nat × List (Str × Str) × List (Str × Str)) :=
  instDecidableEqProd

/-- A parsed block survives `parse_yarn`'s filtering when it has at least one
source spec and a `version` field. -/
def block_kept (b : Nat × (List (Str × Str) × List (Str × Str))) : Bool :=
  !(decide (b.2.1.length < 1)) && (dictGet b.2.2 versionKey).isSome

/-- A v1 lockfile with two valid blocks (lines 4 and 10) and one block
without a `version` field (line 7) in between. -/
def doc1 : Str :=
  (YARN1_PREFIX ++
    "a@^1.0.0:\n  version \"1.0.0\"\n\nb@^2.0.0:\n  resolved \"r\"\n\nc@^3.0.0:\n  version \"3.0.0\"\n").toList

/-- The block list that the v1 grammar extracts from `doc1`. -/
def deps1 : List (Nat × (List (Str × Str) × List (Str × Str))) :=
  [ (4, ([("a".toList, "^1.0.0".toList)], [(versionKey, "1.0.0".toList)]))
  , (7, ([("b".toList, "^2.0.0".toList)], [(resolvedKey, "r".toList)]))
  , (10, ([("c".toList, "^3.0.0".toList)], [(versionKey, "3.0.0".toList)])) ]

/-- A text that is not a lockfile in either dialect. -/
def docBad : Str := "not a lockfile\n".toList

/-- A text resembling dialect-A syntax whose banner is not the exact
`YARN1_PREFIX` (the first banner line is missing). -/
def lookalike : Str := "# yarn lockfile v1\n\na@^1.0.0:\n  version \"1\"\n".toList

/-- A v1 document whose single block header carries zero source specs. -/
def docZero : Str := (YARN1_PREFIX ++ ":\n  version \"1\"\n").toList

/-- A two-space field line whose key and value are both quoted. -/
def kvQuotedKeyLine : Str :=
  [' ', ' '] ++ [dq] ++ "k".toList ++ [dq] ++ [' '] ++ [dq] ++ "v".toList ++ [dq] ++ [nl]

/-! ## Helper lemmas -/

lemma transitivityLoop_direct_iff (m : List (Str × Str)) (srcs : List (Str × Str)) :
    transitivityLoop m srcs = Transitivity.direct ↔ ∃ p, p ∈ srcs ∧ p ∈ m := by
  induction srcs with
  | nil => simp [transitivityLoop]
  | cons s rest ih =>
    by_cases h : s ∈ m
    · constructor
      · intro _
        exact ⟨s, List.mem_cons_self s rest, h⟩
      · intro _
        simp [transitivityLoop, h]
    · simp only [transitivityLoop, if_neg h, ih]
      constructor
      · rintro ⟨p, hp, hm⟩
        exact ⟨p, List.mem_cons_of_mem s hp, hm⟩
      · rintro ⟨p, hp, hm⟩
        rcases List.mem_cons.mp hp with rfl | hp
        · exact absurd hm h
        · exact ⟨p, hp, hm⟩

lemma transitivityLoop_direct_or_transitive (m : List (Str × Str))
    (srcs : List (Str × Str)) :
    transitivityLoop m srcs = Transitivity.direct ∨
      transitivityLoop m srcs = Transitivity.transitive := by
  induction srcs with
  | nil => exact Or.inr rfl
  | cons s rest ih =>
    by_cases h : s ∈ m
    · exact Or.inl (by simp [transitivityLoop, h])
    · simpa [transitivityLoop, h] using ih

lemma transitivityLoop_transitive_iff (m : List (Str × Str)) (srcs : List (Str × Str)) :
    transitivityLoop m srcs = Transitivity.transitive ↔ ¬ ∃ p, p ∈ srcs ∧ p ∈ m := by
  constructor
  · intro h hex
    rw [← transitivityLoop_direct_iff m srcs] at hex
    simp [h] at hex
  · intro hne
    rcases transitivityLoop_direct_or_transitive m srcs with h | h
    · exact absurd ((transitivityLoop_direct_iff m srcs).mp h) hne
    · exact h

lemma pySplit_ne_nil (c : Char) (s : Str) : pySplit c s ≠ [] := by
  induction s with
  | nil => simp [pySplit]
  | cons x xs ih =>
    by_cases h : x = c
    · simp [pySplit, h]
    · simp only [pySplit, if_neg h]
      cases hx : pySplit c xs with
      | nil => simp
      | cons p ps => simp

lemma pySplit_not_mem (c : Char) (s : Str) (h : c ∉ s) : pySplit c s = [s] := by
  induction s with
  | nil => rfl
  | cons x xs ih =>
    have hx : ¬ x = c := by
      rintro rfl
      exact h (List.mem_cons_self _ _)
    have hxs : c ∉ xs := fun hm => h (List.mem_cons_of_mem _ hm)
    simp only [pySplit, if_neg hx, ih hxs]

lemma pySplit_length_two (c : Char) (s : Str) (h : c ∈ s) :
    2 ≤ (pySplit c s).length := by
  induction s with
  | nil => cases h
  | cons x xs ih =>
    by_cases hx : x = c
    · have h1 : pySplit c xs ≠ [] := pySplit_ne_nil c xs
      have h2 : 1 ≤ (pySplit c xs).length := by
        cases hp : pySplit c xs with
        | nil => exact absurd hp h1
        | cons p ps => simp
      simp only [pySplit, if_pos hx, List.length_cons]
      omega
    · have hmem : c ∈ xs := by
        rcases List.mem_cons.mp h with rfl | hm
        · exact absurd rfl hx
        · exact hm
      simp only [pySplit, if_neg hx]
      cases hp : pySplit c xs with
      | nil => exact absurd hp (pySplit_ne_nil c xs)
      | cons p ps =>
        have h3 := ih hmem
        rw [hp] at h3
        simpa using h3

lemma pySplit_cons_self (c : Char) (xs : Str) :
    pySplit c (c :: xs) = [] :: pySplit c xs := by
  simp [pySplit]

lemma pyJoin_dropLast_pySplit (c : Char) (a : Str) :
    ∀ b : Str, c ∉ b → pyJoin [c] ((pySplit c (a ++ c :: b)).dropLast) = a := by
  induction a with
  | nil =>
    intro b hb
    rw [List.nil_append, pySplit_cons_self, pySplit_not_mem c b hb]
    rfl
  | cons x a' ih =>
    intro b hb
    by_cases hx : x = c
    · subst hx
      rw [List.cons_append, pySplit_cons_self]
      have hne := pySplit_ne_nil x (a' ++ x :: b)
      have hlen : 2 ≤ (pySplit x (a' ++ x :: b)).length :=
        pySplit_length_two _ _ (by simp)
      cases hp : pySplit x (a' ++ x :: b) with
      | nil => exact absurd hp hne
      | cons p ps =>
        cases ps with
        | nil =>
          rw [hp] at hlen
          simp at hlen
        | cons q qs =>
          have ihh := ih b hb
          rw [hp] at ihh
          have h2 : List.dropLast (p :: q :: qs) = p :: List.dropLast (q :: qs) := rfl
          have h1 : List.dropLast ([] :: p :: q :: qs)
              = [] :: p :: List.dropLast (q :: qs) := rfl
          rw [h2] at ihh
          rw [h1]
          have h3 : pyJoin [x] ([] :: p :: List.dropLast (q :: qs))
              = [] ++ [x] ++ pyJoin [x] (p :: List.dropLast (q :: qs)) := rfl
          rw [h3, ihh]
          simp
    · rw [List.cons_append]
      rw [show pySplit c (x :: (a' ++ c :: b))
          = (match pySplit c (a' ++ c :: b) with
             | [] => [[x]]
             | p :: ps => (x :: p) :: ps) from by
        simp only [pySplit, if_neg hx]]
      have hne := pySplit_ne_nil c (a' ++ c :: b)
      have hlen : 2 ≤ (pySplit c (a' ++ c :: b)).length :=
        pySplit_length_two _ _ (by simp)
      cases hp : pySplit c (a' ++ c :: b) with
      | nil => exact absurd hp hne
      | cons p ps =>
        cases ps with
        | nil =>
          rw [hp] at hlen
          simp at hlen
        | cons q qs =>
          have ihh := ih b hb
          rw [hp] at ihh
          have h2 : List.dropLast (p :: q :: qs) = p :: List.dropLast (q :: qs) := rfl
          rw [h2] at ihh
          show pyJoin [c] (List.dropLast ((x :: p) :: q :: qs)) = x :: a'
          have h1 : List.dropLast ((x :: p) :: q :: qs)
              = (x :: p) :: List.dropLast (q :: qs) := rfl
          rw [h1]
          cases hd : List.dropLast (q :: qs) with
          | nil =>
            rw [hd] at ihh
            have hpa : p = a' := ihh
            show x :: p = x :: a'
            rw [hpa]
          | cons r rs =>
            rw [hd] at ihh
            have e1 : pyJoin [c] ((x :: p) :: r :: rs)
                = (x :: p) ++ [c] ++ pyJoin [c] (r :: rs) := rfl
            have e2 : pyJoin [c] (p :: r :: rs)
                = p ++ [c] ++ pyJoin [c] (r :: rs) := rfl
            rw [e1]
            rw [e2] at ihh
            rw [← ihh]
            simp

lemma isPrefixOf_npm_head_ne (c : Char) (s : Str) (h : c ≠ 'n') :
    "npm:".toList.isPrefixOf (c :: s) = false := by
  refine Bool.eq_false_iff.mpr (fun ht => ?_)
  have hp := List.isPrefixOf_iff_prefix.mp ht
  rw [show "npm:".toList = 'n' :: "pm:".toList from rfl] at hp
  exact h (List.cons_prefix_cons.mp hp).1.symm

lemma pstringCore_append (l : Str) : ∀ (rest : Str) (ln : Nat),
    pstringCore l ⟨l ++ rest, ln⟩ = some ⟨rest, ln + l.count nl⟩ := by
  induction l with
  | nil =>
    intro rest ln
    simp [pstringCore]
  | cons c cs ih =>
    intro rest ln
    rw [List.cons_append]
    show (if c = c then pstringCore cs ⟨cs ++ rest, if c = nl then ln + 1 else ln⟩
          else none) = some ⟨rest, ln + (c :: cs).count nl⟩
    rw [if_pos rfl]
    by_cases hc : c = nl
    · subst hc
      rw [if_pos rfl, ih]
      simp only [Option.some.injEq, PState.mk.injEq, true_and, List.count_cons,
        beq_self_eq_true, if_true]
      omega
    · rw [if_neg hc, ih]
      have hcount : (c :: cs).count nl = cs.count nl := by
        simp [List.count_cons, Ne.symm hc]
      rw [hcount]

lemma pstring_append (l rest : Str) (ln : Nat) :
    pstring l ⟨l ++ rest, ln⟩ = some (l, ⟨rest, ln + l.count nl⟩) := by
  simp [pstring, pstringCore_append]

lemma pstring_one (c : Char) (xs : Str) (ln : Nat) (h : c ≠ nl) :
    pstring [c] ⟨c :: xs, ln⟩ = some ([c], ⟨xs, ln⟩) := by
  have := pstring_append [c] xs ln
  rw [List.singleton_append] at this
  rw [this]
  have hcount : ([c] : Str).count nl = 0 := by
    simp [List.count_cons, Ne.symm h]
  rw [hcount, Nat.add_zero]

lemma uptoCore_append (ts : List Char) (pre : Str) (c : Char) (rest : Str)
    (hpre : ∀ x ∈ pre, x ∉ ts) (hc : c ∈ ts) :
    uptoCore ts (pre ++ c :: rest) = some (pre, c :: rest) := by
  induction pre with
  | nil => simp [uptoCore, hc]
  | cons y ys ih =>
    have hy : y ∉ ts := hpre y (List.mem_cons_self _ _)
    have hys : ∀ x ∈ ys, x ∉ ts := fun x hx => hpre x (List.mem_cons_of_mem _ hx)
    rw [List.cons_append]
    show (if y ∈ ts then some (([] : Str), y :: (ys ++ c :: rest))
          else match uptoCore ts (ys ++ c :: rest) with
            | none => none
            | some (pre, r) => some (y :: pre, r)) = some (y :: ys, c :: rest)
    rw [if_neg hy, ih hys]

lemma upto_eval (ts : List Char) (pre : Str) (c : Char) (rest : Str) (ln : Nat)
    (hpre : ∀ x ∈ pre, x ∉ ts) (hc : c ∈ ts) (hnl : nl ∉ pre) :
    upto ts false ⟨pre ++ c :: rest, ln⟩ = some (pre, ⟨c :: rest, ln⟩) := by
  simp only [upto]
  rw [uptoCore_append ts pre c rest hpre hc]
  simp [List.count_eq_zero_of_not_mem hnl]

lemma manyAux_spaces (fuel : Nat) : ∀ (n : Nat) (rest : Str) (ln : Nat),
    n < fuel → rest.head? ≠ some ' ' →
    manyAux (pstringS " ") fuel ⟨List.replicate n ' ' ++ rest, ln⟩
      = some (List.replicate n [' '], ⟨rest, ln⟩) := by
  induction fuel with
  | zero =>
    intro n rest ln h _
    exact absurd h (Nat.not_lt_zero n)
  | succ f ih =>
    intro n rest ln hn hr
    cases n with
    | zero =>
      have hfail : pstringS " " ⟨rest, ln⟩ = none := by
        cases rest with
        | nil => rfl
        | cons r rs =>
          have hne : ¬ r = ' ' := by
            intro e
            exact hr (by rw [e]; rfl)
          show ((if r = ' ' then pstringCore [] (PState.step ⟨r :: rs, ln⟩ ' ' rs)
                else none).map (fun st2 => ([' '], st2))) = none
          rw [if_neg hne]
          rfl
      simp only [manyAux, List.replicate, List.nil_append]
      rw [hfail]
    | succ m =>
      have hstep : pstringS " " ⟨List.replicate (m + 1) ' ' ++ rest, ln⟩
          = some ([' '], ⟨List.replicate m ' ' ++ rest, ln⟩) := by
        show pstring [' '] ⟨' ' :: (List.replicate m ' ' ++ rest), ln⟩ = _
        exact pstring_one ' ' _ ln (by decide)
      simp only [manyAux]
      rw [hstep]
      simp only [ih m rest ln (by omega) hr]
      rfl

lemma pmany_spaces (n : Nat) (rest : Str) (ln : Nat) (hr : rest.head? ≠ some ' ') :
    pmany (pstringS " ") ⟨List.replicate n ' ' ++ rest, ln⟩
      = some (List.replicate n [' '], ⟨rest, ln⟩) := by
  have hlt : n < (List.replicate n ' ' ++ rest).length + 1 := by
    simp only [List.length_append, List.length_replicate]
    omega
  simp only [pmany]
  exact manyAux_spaces _ n rest ln hlt hr

lemma takeWhile_append_line (content rest : Str) (h : nl ∉ content) :
    (content ++ nl :: rest).takeWhile (fun c => c != nl) = content := by
  induction content with
  | nil => simp [List.takeWhile_cons]
  | cons x xs ih =>
    have hx : ¬ x = nl := by
      rintro rfl
      exact h (List.mem_cons_self _ _)
    have hxs : nl ∉ xs := fun hm => h (List.mem_cons_of_mem _ hm)
    have hbx : (x != nl) = true := by simp [hx]
    rw [List.cons_append, List.takeWhile_cons, hbx, if_pos rfl, ih hxs]

lemma dropWhile_append_line (content rest : Str) (h : nl ∉ content) :
    (content ++ nl :: rest).dropWhile (fun c => c != nl) = nl :: rest := by
  induction content with
  | nil => simp [List.dropWhile_cons]
  | cons x xs ih =>
    have hx : ¬ x = nl := by
      rintro rfl
      exact h (List.mem_cons_self _ _)
    have hxs : nl ∉ xs := fun hm => h (List.mem_cons_of_mem _ hm)
    have hbx : (x != nl) = true := by simp [hx]
    rw [List.cons_append, List.dropWhile_cons, hbx, if_pos rfl]
    exact ih hxs

lemma consume_line_eval {α : Type} (content rest : Str) (ln : Nat)
    (hne : content ≠ []) (h : nl ∉ content) :
    consume_line (α := α) ⟨content ++ nl :: rest, ln⟩
      = some (none, ⟨nl :: rest, ln⟩) := by
  cases content with
  | nil => exact absurd rfl hne
  | cons c cs =>
    simp only [consume_line]
    rw [takeWhile_append_line _ rest h, dropWhile_append_line _ rest h]

lemma peek_cons (c : Char) (cs : Str) (ln : Nat) :
    peek_any_char ⟨c :: cs, ln⟩ = some (c, ⟨c :: cs, ln⟩) := rfl

lemma head_append_ne (key X : Str) (hk0 : key ≠ []) (hh : key.head? ≠ some ' ') :
    (key ++ X).head? ≠ some ' ' := by
  cases key with
  | nil => exact absurd rfl hk0
  | cons k ks => simpa using hh

lemma head_ne_of_not_mem (key : Str) (h : ' ' ∉ key) : key.head? ≠ some ' ' := by
  cases key with
  | nil => simp
  | cons k ks =>
    intro he
    rw [List.head?_cons] at he
    injection he with he
    subst he
    exact h (List.mem_cons_self _ _)

lemma assemble_map_line (v : Nat) (m : Option (List (Str × Str))) :
    ∀ deps, (assemble v m deps).map FoundDependency.line_number
      = (deps.filter block_kept).map Prod.fst := by
  intro deps
  induction deps with
  | nil => rfl
  | cons b rest ih =>
    obtain ⟨ln, srcs, fields⟩ := b
    by_cases h1 : srcs.length < 1
    · have hd : decide (srcs.length < 1) = true := decide_eq_true h1
      have hs : srcs = [] := List.length_eq_zero.mp (by omega)
      have hk : block_kept (ln, srcs, fields) = false := by
        simp [block_kept, hs]
      have ha : assemble v m ((ln, (srcs, fields)) :: rest) = assemble v m rest := by
        simp [assemble, h1]
      rw [ha]
      simp [List.filter_cons, hk, ih]
    · have hd : decide (srcs.length < 1) = false := decide_eq_false h1
      cases h2 : dictGet fields versionKey with
      | none =>
        have hk : block_kept (ln, srcs, fields) = false := by
          simp [block_kept, hd, h2]
        have ha : assemble v m ((ln, (srcs, fields)) :: rest) = assemble v m rest := by
          simp [assemble, h1, h2]
        rw [ha]
        simp [List.filter_cons, hk, ih]
      | some ver =>
        have hs0 : ¬ srcs = [] := by
          intro e
          rw [e] at h1
          exact h1 (by simp)
        have hk : block_kept (ln, srcs, fields) = true := by
          simp [block_kept, hd, h2, hs0]
        have ha : assemble v m ((ln, (srcs, fields)) :: rest)
            = mk_found_dependency v m ln srcs fields ver :: assemble v m rest := by
          simp [assemble, h1, h2]
        have hline : (mk_found_dependency v m ln srcs fields ver).line_number = ln := rfl
        rw [ha]
        simp [List.filter_cons, hk, ih, hline]

lemma key_value1_field (key value rest : Str) (ln : Nat)
    (hk0 : key ≠ []) (hks : ' ' ∉ key) (hkc : ':' ∉ key) (hkn : nl ∉ key)
    (hvn : nl ∉ value) :
    key_value1 ⟨' ' :: ' ' :: (key ++ ' ' :: (value ++ nl :: rest)), ln⟩
      = some (some (key, strip_quotes value), ⟨nl :: rest, ln⟩) := by
  have hpre1 : ∀ x ∈ key, x ∉ ([' ', ':'] : List Char) := by
    intro x hx hmem
    rcases List.mem_cons.mp hmem with rfl | hmem2
    · exact hks hx
    · rw [List.mem_singleton] at hmem2
      subst hmem2
      exact hkc hx
  have hprev : ∀ x ∈ value, x ∉ ([nl] : List Char) := by
    intro x hx hmem
    rw [List.mem_singleton] at hmem
    subst hmem
    exact hvn hx
  have hhead : (key ++ ' ' :: (value ++ nl :: rest)).head? ≠ some ' ' :=
    head_append_ne _ _ hk0 (head_ne_of_not_mem _ hks)
  have h1 := pmany_spaces 2 (key ++ ' ' :: (value ++ nl :: rest)) ln hhead
  have h2 := upto_eval [' ', ':'] key ' ' (value ++ nl :: rest) ln hpre1 (by simp) hkn
  have h3 := peek_cons ' ' (value ++ nl :: rest) ln
  have h4 : pstringS " " ⟨' ' :: (value ++ nl :: rest), ln⟩
      = some ([' '], ⟨value ++ nl :: rest, ln⟩) :=
    pstring_one ' ' (value ++ nl :: rest) ln (by decide)
  have h5 := upto_eval [nl] value nl rest ln hprev (by simp) hvn
  show key_value1 ⟨List.replicate 2 ' ' ++ (key ++ ' ' :: (value ++ nl :: rest)), ln⟩ = _
  simp only [key_value1, Parser.bind, Parser.seqRight, Parser.pure, h1, h2, h3, h4, h5,
    List.length_replicate, ne_eq, not_true_eq_false, if_false,
    if_neg (show ¬ (' ' = ':') from by decide)]

lemma key_value1_indent (n : Nat) (content rest : Str) (ln : Nat)
    (hn : n ≠ 2) (hc0 : content ≠ []) (hch : content.head? ≠ some ' ')
    (hcn : nl ∉ content) :
    key_value1 ⟨List.replicate n ' ' ++ (content ++ nl :: rest), ln⟩
      = some (none, ⟨nl :: rest, ln⟩) := by
  have hhead : (content ++ nl :: rest).head? ≠ some ' ' :=
    head_append_ne _ _ hc0 hch
  have h1 := pmany_spaces n (content ++ nl :: rest) ln hhead
  have h2 := consume_line_eval (α := Str × Str) content rest ln hc0 hcn
  simp only [key_value1, Parser.bind, h1]
  rw [if_pos (by simp [hn])]
  exact h2

lemma key_value2_field (key value rest : Str) (ln : Nat)
    (hk0 : key ≠ []) (hkh : key.head? ≠ some ' ') (hkc : ':' ∉ key) (hkn : nl ∉ key)
    (hvn : nl ∉ value) :
    key_value2 ⟨' ' :: ' ' :: (key ++ ':' :: ' ' :: (value ++ nl :: rest)), ln⟩
      = some (some (key, strip_quotes value), ⟨nl :: rest, ln⟩) := by
  have hpre1 : ∀ x ∈ key, x ∉ ([':'] : List Char) := by
    intro x hx hmem
    rw [List.mem_singleton] at hmem
    subst hmem
    exact hkc hx
  have hprev : ∀ x ∈ value, x ∉ ([nl] : List Char) := by
    intro x hx hmem
    rw [List.mem_singleton] at hmem
    subst hmem
    exact hvn hx
  have hhead : (key ++ ':' :: ' ' :: (value ++ nl :: rest)).head? ≠ some ' ' :=
    head_append_ne _ _ hk0 hkh
  have h1 := pmany_spaces 2 (key ++ ':' :: ' ' :: (value ++ nl :: rest)) ln hhead
  have h2 := upto_eval [':'] key ':' (' ' :: (value ++ nl :: rest)) ln hpre1 (by simp) hkn
  have h3 : pstringS ":" ⟨':' :: (' ' :: (value ++ nl :: rest)), ln⟩
      = some ([':'], ⟨' ' :: (value ++ nl :: rest), ln⟩) :=
    pstring_one ':' (' ' :: (value ++ nl :: rest)) ln (by decide)
  have h4 := peek_cons ' ' (value ++ nl :: rest) ln
  have h5 : pstringS " " ⟨' ' :: (value ++ nl :: rest), ln⟩
      = some ([' '], ⟨value ++ nl :: rest, ln⟩) :=
    pstring_one ' ' (value ++ nl :: rest) ln (by decide)
  have h6 := upto_eval [nl] value nl rest ln hprev (by simp) hvn
  show key_value2 ⟨List.replicate 2 ' ' ++ (key ++ ':' :: ' ' :: (value ++ nl :: rest)), ln⟩ = _
  simp only [key_value2, Parser.bind, Parser.seqRight, Parser.pure, h1, h2, h3, h4, h5, h6,
    List.length_replicate, ne_eq, not_true_eq_false, if_false,
    if_neg (show ¬ (' ' = nl) from by decide)]

lemma key_value2_indent (n : Nat) (content rest : Str) (ln : Nat)
    (hn : n ≠ 2) (hc0 : content ≠ []) (hch : content.head? ≠ some ' ')
    (hcn : nl ∉ content) :
    key_value2 ⟨List.replicate n ' ' ++ (content ++ nl :: rest), ln⟩
      = some (none, ⟨nl :: rest, ln⟩) := by
  have hhead : (content ++ nl :: rest).head? ≠ some ' ' :=
    head_append_ne _ _ hc0 hch
  have h1 := pmany_spaces n (content ++ nl :: rest) ln hhead
  have h2 := consume_line_eval (α := Str × Str) content rest ln hc0 hcn
  simp only [key_value2, Parser.bind, h1]
  rw [if_pos (by simp [hn])]
  exact h2

/-! ## Claims -/

/-- C3: Transitivity classification: no manifest path or an unparseable
manifest give `none` manifest data and hence `Unknown`; a parsed manifest
without a (nonempty) `dependencies` section gives the empty set, not `none`;
with a manifest set, a record is `Direct` exactly when one of its block's
`(name, constraint)` pairs is literally a member of the set, and `Transitive`
otherwise; and every assembled record carries exactly this classification of
its block's source list. -/
theorem transitivity_classification :
    (∀ srcs, transitivity none srcs = Transitivity.unknown)
    ∧ get_manifest_deps none = none
    ∧ get_manifest_deps (some none) = none
    ∧ (∀ j : ManifestJson, j.dependencies = none → get_manifest_deps (some (some j)) = some [])
    ∧ get_manifest_deps (some (some ⟨some []⟩)) = some []
    ∧ (∀ m srcs, transitivity (some m) srcs = Transitivity.direct ↔ ∃ p, p ∈ srcs ∧ p ∈ m)
    ∧ (∀ m srcs, transitivity (some m) srcs = Transitivity.transitive ↔ ¬ ∃ p, p ∈ srcs ∧ p ∈ m)
    ∧ (∀ v md ln srcs fields ver,
        (mk_found_dependency v md ln srcs fields ver).transitivity = transitivity md srcs) := by
  refine ⟨fun _ => rfl, rfl, rfl, ?_, rfl, ?_, ?_, ?_⟩
  · rintro ⟨deps⟩ h
    cases h
    rfl
  · intro m srcs
    exact transitivityLoop_direct_iff m srcs
  · intro m srcs
    exact transitivityLoop_transitive_iff m srcs
  · intro v md ln srcs fields ver
    rfl

/-- Witness for C3 at the spec's own example: sources
`["a@^1.0.0", "a@^2.0.0"]` against manifest set `{("a","^2.0.0")}` is
`Direct`, against `{("a","^9.9.9")}` is `Transitive`, with no manifest
`Unknown`; and a manifest without `dependencies` yields the empty set. -/
theorem transitivity_classification_witness :
    get_manifest_deps (some (some ⟨none⟩)) = some []
    ∧ transitivity (some [("a".toList, "^2.0.0".toList)])
        [("a".toList, "^1.0.0".toList), ("a".toList, "^2.0.0".toList)] = Transitivity.direct
    ∧ transitivity (some [("a".toList, "^9.9.9".toList)])
        [("a".toList, "^1.0.0".toList), ("a".toList, "^2.0.0".toList)] = Transitivity.transitive
    ∧ transitivity none [("a".toList, "^1.0.0".toList)] = Transitivity.unknown := by
  refine ⟨transitivity_classification.2.2.2.1 ⟨none⟩ rfl, ?_, ?_,
    transitivity_classification.1 _⟩
  · exact (transitivity_classification.2.2.2.2.2.1 _ _).mpr
      ⟨("a".toList, "^2.0.0".toList), by decide⟩
  · exact (transitivity_classification.2.2.2.2.2.2.1 _ _).mpr (by decide)

/-- C2: When the selected document grammar fails on the lockfile text,
`parse_yarn` returns the empty record list (never a partial one). -/
theorem parse_yarn_failed_parse_yields_no_records (text : Str)
    (manifest : Option (Option ManifestJson))
    (h : safe_parse (if yarn_version_of text = 1 then yarn1 else yarn2) text = none) :
    parse_yarn text manifest = [] := by
  simp only [parse_yarn, parse_yarn_core]
  rw [h]

/-- Witness for C2: on a malformed text (no valid banner) the grammar fails
and `parse_yarn` returns `[]`. -/
theorem parse_yarn_failed_parse_yields_no_records_witness :
    parse_yarn docBad none = [] :=
  parse_yarn_failed_parse_yields_no_records docBad none (by decide)

/-- C4: Dialect dispatch: the v1 grammar is selected exactly when the text
starts with the exact v1 banner; any other text — including a near-miss of
the banner — is processed as dialect B (`yarn_version = 2`). -/
theorem dialect_dispatch_by_banner (text : Str) :
    (yarn_version_of text = 1 ↔ YARN1_PREFIX.toList.isPrefixOf text = true)
    ∧ (YARN1_PREFIX.toList.isPrefixOf text = false →
        ∀ manifest, parse_yarn text manifest = parse_yarn_core 2 text manifest)
    ∧ (YARN1_PREFIX.toList.isPrefixOf text = true →
        ∀ manifest, parse_yarn text manifest = parse_yarn_core 1 text manifest) := by
  cases h : YARN1_PREFIX.toList.isPrefixOf text with
  | false =>
    refine ⟨⟨fun h1 => ?_, fun h2 => ?_⟩, fun _ manifest => ?_, fun hc _ => ?_⟩
    · exfalso
      unfold yarn_version_of at h1
      rw [h] at h1
      simp at h1
    · cases h2
    · unfold parse_yarn yarn_version_of
      rw [h]
      rfl
    · cases hc
  | true =>
    refine ⟨⟨fun _ => rfl, fun _ => ?_⟩, fun hc _ => ?_, fun _ manifest => ?_⟩
    · unfold yarn_version_of
      rw [h]
      rfl
    · cases hc
    · unfold parse_yarn yarn_version_of
      rw [h]
      rfl

/-- Witness for C4: `lookalike` resembles dialect-A syntax but lacks the
exact banner, so it is parsed as dialect B. -/
theorem dialect_dispatch_by_banner_witness :
    parse_yarn lookalike none = parse_yarn_core 2 lookalike none ∧
      yarn_version_of lookalike = 2 :=
  ⟨(dialect_dispatch_by_banner lookalike).2.1 (by decide) none, by decide⟩

/-- C9: A dialect-B block with a nonempty `checksum` field is reported with
`allowedHashes = {"sha512": [checksum]}`, the value untransformed. -/
theorem checksum_reported_verbatim_sha512 (m : Option (List (Str × Str)))
    (ln : Nat) (srcs fields : List (Str × Str)) (ver c : Str)
    (h : dictGet fields checksumKey = some c) (hc : c ≠ []) :
    (mk_found_dependency 2 m ln srcs fields ver).allowed_hashes
      = [(sha512Key, [c])] := by
  simp [mk_found_dependency, h, hc]

/-- Witness for C9 on a concrete field map with `checksum: abc`. -/
theorem checksum_reported_verbatim_sha512_witness :
    (mk_found_dependency 2 none 1 [("a".toList, "1".toList)]
        [(checksumKey, "abc".toList)] "1".toList).allowed_hashes
      = [(sha512Key, ["abc".toList])] :=
  checksum_reported_verbatim_sha512 none 1 _ _ _ "abc".toList (by decide) (by decide)

/-- C10: A dialect-B block whose `checksum` field is absent, or present with
the empty string as value, is reported with an empty `allowedHashes` map —
the two cases are indistinguishable in the output. -/
theorem empty_checksum_no_hashes (m : Option (List (Str × Str))) (ln : Nat)
    (srcs fields : List (Str × Str)) (ver : Str) :
    (dictGet fields checksumKey = none →
      (mk_found_dependency 2 m ln srcs fields ver).allowed_hashes = [])
    ∧ (dictGet fields checksumKey = some [] →
      (mk_found_dependency 2 m ln srcs fields ver).allowed_hashes = []) := by
  constructor
  · intro h
    simp [mk_found_dependency, h]
  · intro h
    simp [mk_found_dependency, h]

/-- Witness for C10: a field map without `checksum` and one with an empty
`checksum` value both yield no hashes. -/
theorem empty_checksum_no_hashes_witness :
    (mk_found_dependency 2 none 1 [("a".toList, "1".toList)] []
        "1".toList).allowed_hashes = []
    ∧ (mk_found_dependency 2 none 1 [("a".toList, "1".toList)]
        [(checksumKey, [])] "1".toList).allowed_hashes = [] :=
  ⟨(empty_checksum_no_hashes none 1 _ [] _).1 (by decide),
    (empty_checksum_no_hashes none 1 _ [(checksumKey, [])] _).2 (by decide)⟩

/-- C5: In dialect B every extracted constraint beginning with the literal
`npm:` tag has those four characters removed, while constraints beginning
with any other protocol tag (`file:`, `patch:`, `https:`) — indeed anything
not starting with `npm:` — are preserved verbatim; `source2` applies exactly
this stripping to the constraint it extracts. -/
theorem npm_prefix_stripping :
    (∀ s, remove_npm_prefix ("npm:".toList ++ s) = s)
    ∧ (∀ s, remove_npm_prefix ("file:".toList ++ s) = "file:".toList ++ s)
    ∧ (∀ s, remove_npm_prefix ("patch:".toList ++ s) = "patch:".toList ++ s)
    ∧ (∀ s, remove_npm_prefix ("https:".toList ++ s) = "https:".toList ++ s)
    ∧ (∀ s, "npm:".toList.isPrefixOf s = false → remove_npm_prefix s = s)
    ∧ source2 ⟨"a@npm:^2.0.0".toList ++ [dq], 1⟩
        = some (("a".toList, "^2.0.0".toList), ⟨[dq], 1⟩)
    ∧ source2 ⟨"a@file:../x".toList ++ [dq], 1⟩
        = some (("a".toList, "file:../x".toList), ⟨[dq], 1⟩) := by
  have hgen : ∀ s, "npm:".toList.isPrefixOf s = false → remove_npm_prefix s = s := by
    intro s h
    unfold remove_npm_prefix
    rw [h]
    rfl
  refine ⟨?_, ?_, ?_, ?_, hgen, by decide, by decide⟩
  · intro s
    have h : "npm:".toList.isPrefixOf ("npm:".toList ++ s) = true :=
      List.isPrefixOf_iff_prefix.mpr (List.prefix_append _ _)
    unfold remove_npm_prefix
    rw [h, if_pos rfl]
    exact List.drop_left "npm:".toList s
  · intro s
    exact hgen _ (isPrefixOf_npm_head_ne 'f' _ (by decide))
  · intro s
    exact hgen _ (isPrefixOf_npm_head_ne 'p' _ (by decide))
  · intro s
    exact hgen _ (isPrefixOf_npm_head_ne 'h' _ (by decide))

/-- Witness for C5: a concrete non-`npm:` constraint is preserved verbatim. -/
theorem npm_prefix_stripping_witness :
    remove_npm_prefix "file:../x".toList = "file:../x".toList :=
  npm_prefix_stripping.2.2.2.2.1 "file:../x".toList (by decide)

/-- C6: Resolved-URL fragment stripping: a `resolved` value containing a `#`
keeps exactly the part before the last `#` (so `a#b#c` yields `a#b`); a value
without `#` is unchanged; a block without a `resolved` field yields no
resolved URL; and assembled records carry exactly the stripped field. -/
theorem resolved_url_fragment_stripping :
    (∀ a b : Str, '#' ∉ b →
      remove_trailing_octothorpe (some (a ++ '#' :: b)) = some a)
    ∧ (∀ s : Str, '#' ∉ s → remove_trailing_octothorpe (some s) = some s)
    ∧ remove_trailing_octothorpe none = none
    ∧ (∀ v m ln srcs fields ver, dictGet fields resolvedKey = none →
        (mk_found_dependency v m ln srcs fields ver).resolved_url = none)
    ∧ (∀ v m ln srcs fields ver,
        (mk_found_dependency v m ln srcs fields ver).resolved_url
          = remove_trailing_octothorpe (dictGet fields resolvedKey)) := by
  refine ⟨?_, ?_, rfl, ?_, ?_⟩
  · intro a b hb
    have hmem : '#' ∈ a ++ '#' :: b := by simp
    simp only [remove_trailing_octothorpe, if_pos hmem]
    rw [pyJoin_dropLast_pySplit '#' a b hb]
  · intro s hs
    simp only [remove_trailing_octothorpe, if_neg hs]
  · intro v m ln srcs fields ver h
    simp [mk_found_dependency, h, remove_trailing_octothorpe]
  · intro v m ln srcs fields ver
    rfl

/-- Witness for C6 at the spec's own examples: `a#b#c` strips to `a#b`, a
value without `#` is unchanged. -/
theorem resolved_url_fragment_stripping_witness :
    remove_trailing_octothorpe (some ("a#b".toList ++ '#' :: "c".toList))
      = some "a#b".toList
    ∧ remove_trailing_octothorpe (some "abc".toList) = some "abc".toList :=
  ⟨resolved_url_fragment_stripping.1 "a#b".toList "c".toList (by decide),
    resolved_url_fragment_stripping.2.1 "abc".toList (by decide)⟩

/-- C1: When the selected document grammar succeeds on the lockfile text,
`parse_yarn` emits exactly one record per parsed block that has at least one
source spec and a `version` field, no record for any other block, in block
order, each record carrying the 1-based line number of its block's header
(the first components of the parsed blocks). -/
theorem parse_yarn_one_record_per_valid_block (text : Str)
    (manifest : Option (Option ManifestJson))
    (deps : List (Nat × (List (Str × Str) × List (Str × Str))))
    (h : safe_parse (if yarn_version_of text = 1 then yarn1 else yarn2) text
      = some deps) :
    (parse_yarn text manifest).map FoundDependency.line_number
      = (deps.filter block_kept).map Prod.fst
    ∧ (parse_yarn text manifest).length = (deps.filter block_kept).length := by
  cases deps with
  | nil =>
    have hpy : parse_yarn text manifest = [] := by
      simp only [parse_yarn, parse_yarn_core]
      rw [h]
    rw [hpy]
    exact ⟨rfl, rfl⟩
  | cons d ds =>
    have hpy : parse_yarn text manifest
        = assemble (yarn_version_of text) (get_manifest_deps manifest) (d :: ds) := by
      simp only [parse_yarn, parse_yarn_core]
      rw [h]
    have hmap := assemble_map_line (yarn_version_of text) (get_manifest_deps manifest)
      (d :: ds)
    refine ⟨by rw [hpy]; exact hmap, ?_⟩
    rw [hpy]
    calc (assemble (yarn_version_of text) (get_manifest_deps manifest) (d :: ds)).length
        = ((assemble (yarn_version_of text) (get_manifest_deps manifest)
            (d :: ds)).map FoundDependency.line_number).length := by
          rw [List.length_map]
      _ = (((d :: ds).filter block_kept).map Prod.fst).length := by rw [hmap]
      _ = ((d :: ds).filter block_kept).length := by rw [List.length_map]

/-- Witness for C1: `doc1` parses to the three blocks `deps1` (lines 4, 7,
10); the block at line 7 has no `version` field, so exactly the records for
lines 4 and 10 are emitted, in order. -/
theorem parse_yarn_one_record_per_valid_block_witness :
    (parse_yarn doc1 none).map FoundDependency.line_number = [4, 10]
    ∧ (parse_yarn doc1 none).length = 2 := by
  have h := parse_yarn_one_record_per_valid_block doc1 none deps1 (by decide)
  exact ⟨h.1.trans (by decide), h.2.trans (by decide)⟩

/-- C7 (amended): In both dialects, a line with exactly two leading spaces
that is a data field yields the pair of the key taken verbatim and the value
with all surrounding double quotes stripped (Python `str.strip('"')`); the
key is not quote-stripped.  A (nonempty) line with any other indentation
depth is consumed up to the end of the line and produces no field. -/
theorem key_value_field_lines :
    (∀ (key value rest : Str) (ln : Nat), key ≠ [] → ' ' ∉ key → ':' ∉ key →
      nl ∉ key → nl ∉ value →
      key_value1 ⟨' ' :: ' ' :: (key ++ ' ' :: (value ++ nl :: rest)), ln⟩
        = some (some (key, strip_quotes value), ⟨nl :: rest, ln⟩))
    ∧ (∀ (n : Nat) (content rest : Str) (ln : Nat), n ≠ 2 → content ≠ [] →
      content.head? ≠ some ' ' → nl ∉ content →
      key_value1 ⟨List.replicate n ' ' ++ (content ++ nl :: rest), ln⟩
        = some (none, ⟨nl :: rest, ln⟩))
    ∧ (∀ (key value rest : Str) (ln : Nat), key ≠ [] → key.head? ≠ some ' ' →
      ':' ∉ key → nl ∉ key → nl ∉ value →
      key_value2 ⟨' ' :: ' ' :: (key ++ ':' :: ' ' :: (value ++ nl :: rest)), ln⟩
        = some (some (key, strip_quotes value), ⟨nl :: rest, ln⟩))
    ∧ (∀ (n : Nat) (content rest : Str) (ln : Nat), n ≠ 2 → content ≠ [] →
      content.head? ≠ some ' ' → nl ∉ content →
      key_value2 ⟨List.replicate n ' ' ++ (content ++ nl :: rest), ln⟩
        = some (none, ⟨nl :: rest, ln⟩)) :=
  ⟨key_value1_field, key_value1_indent, key_value2_field, key_value2_indent⟩

/-- Witness for C7 on concrete lines: `  version 1.0.0` is a v1 data field,
a four-space line produces no field. -/
theorem key_value_field_lines_witness :
    key_value1 ⟨' ' :: ' ' :: ("version".toList ++ ' ' :: ("1.0.0".toList ++ nl :: [])), 1⟩
      = some (some ("version".toList, strip_quotes "1.0.0".toList), ⟨[nl], 1⟩)
    ∧ key_value1 ⟨List.replicate 4 ' ' ++ ("x".toList ++ nl :: []), 1⟩
      = some (none, ⟨[nl], 1⟩) :=
  ⟨key_value_field_lines.1 "version".toList "1.0.0".toList [] 1 (by decide) (by decide)
      (by decide) (by decide) (by decide),
    key_value_field_lines.2.1 4 "x".toList [] 1 (by decide) (by decide) (by decide)
      (by decide)⟩

/-- Counterexample for C7: on the line `  "k" "v"` the field grammar keeps
the surrounding quotes of the key — only the value is quote-stripped — so the
claim that one layer of quotes is stripped from both key and value is false. -/
theorem key_value_quote_stripping_counterexample :
    key_value1 ⟨kvQuotedKeyLine, 1⟩
      = some (some (dq :: 'k' :: [dq], "v".toList), ⟨[nl], 1⟩)
    ∧ (dq :: 'k' :: [dq]) ≠ "k".toList := by
  exact ⟨by decide, by decide⟩

/-- C8 (amended): A block header with zero source specs before the `":\n"`
terminator does not make parsing fail: in dialect A a bare `:` header line
(and in dialect B an empty quoted list `"":`) parses successfully with an
empty source list, and the assembly loop then drops any block with an empty
source list, so the block yields no record. -/
theorem zero_source_header_parses_empty :
    Parser.seqLeft multi_source1 (pstringS ":\n") ⟨":\n".toList, 1⟩
      = some ([], ⟨[], 2⟩)
    ∧ Parser.seqLeft multi_source2 (pstringS ":\n") ⟨dq :: dq :: ":\n".toList, 1⟩
      = some ([], ⟨[], 2⟩)
    ∧ (∀ v m ln fields rest, assemble v m ((ln, ([], fields)) :: rest)
        = assemble v m rest) := by
  refine ⟨by decide, by decide, ?_⟩
  intro v m ln fields rest
  simp [assemble]

/-- Counterexample for C8: a v1 document whose only block header carries zero
source specs — block-header parsing and the whole-document parse succeed
(yielding the block with an empty source list at line 4), rather than fail;
the file yields zero records through filtering, not through parse failure. -/
theorem zero_source_header_counterexample :
    safe_parse yarn1 docZero = some [(4, ([], [(versionKey, "1".toList)]))]
    ∧ yarn_dep1 ⟨(":\n  version \"1\"\n").toList, 1⟩
        = some ((1, ([], [(versionKey, "1".toList)])), ⟨[nl], 2⟩)
    ∧ parse_yarn docZero none = [] := by
  exact ⟨by decide, by decide, by decide⟩

end Yarn
